import Mathlib

/-!
Shallow embedding of the CarePilot triage queue and wait-time estimation
engine (src/app.py): patient records, priority classification, queue
reordering, the wait-time simulator, kiosk check-in, staff status changes
and token allocation, together with theorems about them.

Python strings are modelled as Lean `String`; Python timestamps (time.time)
as rationals; Python ints as `Int`; dictionaries as association lists in
insertion order.  All vitals values are modelled as rationals, which is
exact for the decimal literals the thresholds use.
-/

namespace CarePilot

/- Batteries marks rational arithmetic irreducible, which blocks `decide`
on concrete clock arithmetic; restore the default reducibility locally. -/
attribute [local semireducible] Rat.sub Rat.add

/-! ### String helpers, mirroring the Python str methods used by app.py -/

/-- Python str.lower (ASCII range, which covers all inputs used here). -/
def strLower (s : String) : String := String.mk (s.data.map Char.toLower)

/-- Python str.upper (ASCII range). -/
def strUpper (s : String) : String := String.mk (s.data.map Char.toUpper)

/-- Does the second list start with the first list? -/
def charsHasPfx : List Char → List Char → Bool
  | [], _ => true
  | _ :: _, [] => false
  | a :: as, b :: bs => a == b && charsHasPfx as bs

/-- Substring containment on character lists: first argument is the
haystack, second the needle. -/
def charsContains : List Char → List Char → Bool
  | [], needle => needle.isEmpty
  | a :: t, needle => charsHasPfx needle (a :: t) || charsContains t needle

/-- Python `needle in hay` on strings. -/
def strContains (hay needle : String) : Bool := charsContains hay.data needle.data

/-- Python str.startswith. -/
def strHasPfx (s pre : String) : Bool := charsHasPfx pre.data s.data

/-- Python str.strip (whitespace on both ends). -/
def strTrim (s : String) : String :=
  String.mk (((s.data.dropWhile Char.isWhitespace).reverse.dropWhile Char.isWhitespace).reverse)

/-- The apostrophe character (written via its code point). -/
def apos : Char := Char.ofNat 39

/-- Lexicographic comparison of character lists by code point, exactly as
Python compares strings: the empty string sorts first. -/
def charsLe : List Char → List Char → Bool
  | [], _ => true
  | _ :: _, [] => false
  | a :: as, b :: bs => decide (a < b) || (a == b && charsLe as bs)

/-! ### Data model: PatientRecord and the shared state

A patient record is the dictionary created by the intake handlers; the
fields of `ai_result` that the engine reads (`operational_complexity`,
`estimated_visit_duration_minutes`) are inlined as optional fields, since
the code reads them through `.get` with defaults. -/

structure PatientRecord where
  token : String
  first_name : String := ""
  last_name : String := ""
  status : String
  priority : String := "low"
  emergency_type : String := ""
  checked_in_at : Option String := none
  operational_complexity : Option String := none
  estimated_visit_duration_minutes : Option Int := none
deriving DecidableEq

/-- The `patients` dict: pid to record, in insertion order. -/
abbrev Records := List (String × PatientRecord)

/-- app.py `full_name`. -/
def full_name (p : PatientRecord) : String :=
  let first := strTrim p.first_name
  let last := strTrim p.last_name
  let joined := strTrim (first ++ " " ++ last)
  if joined = "" then "Unknown Patient" else joined

/-- app.py `PRIORITY_ORDER` with the double default used at the call site:
`PRIORITY_ORDER.get(p.get("priority", "low"), 2)`. -/
def PRIORITY_ORDER (p : String) : Nat :=
  if p = "high" then 0 else if p = "medium" then 1 else 2

/-! ### PriorityClassifier: `_classify_priority_from_vitals_and_symptoms` -/

/-- A vitals snapshot; each field may be absent, as in the Python dict. -/
structure Vitals where
  spo2 : Option ℚ := none
  hr : Option ℚ := none
  bp_sys : Option ℚ := none
  bp_dia : Option ℚ := none
  temp_c : Option ℚ := none
deriving DecidableEq

/-- `x is not None and x < c`. -/
def optLt (x : Option ℚ) (c : ℚ) : Bool :=
  match x with
  | some y => decide (y < c)
  | none => false

/-- `x is not None and x > c`. -/
def optGt (x : Option ℚ) (c : ℚ) : Bool :=
  match x with
  | some y => decide (c < y)
  | none => false

/-- The `severe_keywords` list of the classifier, in source order. -/
def severe_keywords : List String :=
  ["chest pain", "heart attack", "stroke",
   String.mk ['c', 'a', 'n', apos, 't', ' ', 'b', 'r', 'e', 'a', 't', 'h', 'e'],
   "difficulty breathing", "unconscious", "seizure", "bleeding heavily",
   "anaphylaxis", "overdose"]

/-- `kw.replace(" ", "_").replace(the apostrophe, "")`. -/
def normalizeKeyword (kw : String) : String :=
  String.mk (kw.data.filterMap (fun c =>
    if c = ' ' then some '_' else if c = apos then none else some c))

/-- The classifier for-loop over `severe_keywords`: first keyword that is a
substring of the lowercased symptom text. -/
def firstSevereMatch (symptoms_lower : String) : List String → Option String
  | [] => none
  | kw :: rest =>
    if strContains symptoms_lower kw then some kw else firstSevereMatch symptoms_lower rest

/-- app.py `_classify_priority_from_vitals_and_symptoms`. -/
def classify_priority_from_vitals_and_symptoms
    (vitals : Option Vitals) (symptoms : String) (red_flags : List String) :
    String × String :=
  let symptoms_lower := strLower symptoms
  match firstSevereMatch symptoms_lower severe_keywords with
  | some kw => ("high", normalizeKeyword kw)
  | none =>
    if !red_flags.isEmpty then ("high", "emergency_symptoms")
    else
      match vitals with
      | some v =>
        if optLt v.spo2 92 then ("high", "low_oxygen")
        else if optGt v.hr 130 || optLt v.hr 45 then ("high", "critical_heart_rate")
        else if optGt v.bp_sys 180 || optLt v.bp_sys 85 then ("high", "critical_bp")
        else if optGt v.temp_c (395/10) || optLt v.temp_c 35 then ("high", "critical_temp")
        else if optLt v.spo2 95 then ("medium", "")
        else if optGt v.hr 110 || optLt v.hr 50 then ("medium", "")
        else if optGt v.bp_sys 160 || optLt v.bp_sys 95 then ("medium", "")
        else ("low", "")
      | none => ("low", "")

/-! ### QueueOrderer: `_reorder_queue_by_priority` -/

/-- Membership test of `_queue_active` and of the reorder partition:
`pid in patients and patients[pid].get("status") != "done"`. -/
def isActivePid (records : Records) (pid : String) : Bool :=
  match records.lookup pid with
  | some p => p.status != "done"
  | none => false

/-- The sort key of one record:
`(PRIORITY_ORDER.get(p.get("priority", "low"), 2), p.get("checked_in_at") or "")`. -/
def recordKey (p : PatientRecord) : Nat × String :=
  (PRIORITY_ORDER p.priority, p.checked_in_at.getD "")

/-- The sort key of an active pid.  The `none` branch is unreachable: the
key is only evaluated on pids whose record exists. -/
def pidKey (records : Records) (pid : String) : Nat × String :=
  match records.lookup pid with
  | some p => recordKey p
  | none => (2, "")

/-- Ascending comparison of sort keys, i.e. lexicographic tuple comparison
as Python performs it on `(int, str)` pairs. -/
def keyLe (records : Records) (a b : String) : Prop :=
  (pidKey records a).1 < (pidKey records b).1 ∨
    ((pidKey records a).1 = (pidKey records b).1 ∧
      charsLe (pidKey records a).2.data (pidKey records b).2.data = true)

instance keyLeDecidable (records : Records) : DecidableRel (keyLe records) := fun a b => by
  unfold keyLe; infer_instance

/-- app.py `_reorder_queue_by_priority`, as a function from the record map
and the current queue order to the new queue order.  Python `list.sort` is
a stable ascending sort on the key; a stable sort with respect to a total
preorder is extensionally unique, so it is embedded as insertion sort. -/
def reorder_queue_by_priority (records : Records) (queue_order : List String) : List String :=
  let active := queue_order.filter (fun pid => isActivePid records pid)
  let done_or_gone := queue_order.filter (fun pid => !isActivePid records pid)
  List.insertionSort (keyLe records) active ++ done_or_gone

/-! ### WaitTimeSimulator: `_simulate_wait_map` -/

/-- app.py `_lane_from_complexity`. -/
def lane_from_complexity (complexity : String) : String :=
  let c := strLower complexity
  if strHasPfx c "low" then "Fast"
  else if strHasPfx c "high" then "Complex"
  else "Standard"

/-- One element of the `with_meta` list built at the top of
`_simulate_wait_map`: (pid, visit duration with fallback 20, lane). -/
def withMetaEntry (records : Records) (pid : String) : String × Int × String :=
  match records.lookup pid with
  | some p =>
    (pid, p.estimated_visit_duration_minutes.getD 20,
      lane_from_complexity (p.operational_complexity.getD ""))
  | none => (pid, 20, lane_from_complexity "")

/-- The `with_meta` list of `_simulate_wait_map`. -/
def with_meta (records : Records) (pids : List String) : List (String × Int × String) :=
  pids.map (withMetaEntry records)

/-- Python `min(slots)`; slots is never empty in the code (0 as junk value
for the empty list). -/
def listMin : List Int → Int
  | [] => 0
  | x :: xs => xs.foldl min x

/-- Python `slots.index(min(slots))`: the first index holding the minimum
accumulated load. -/
def minIdx (slots : List Int) : Nat := slots.indexOf (listMin slots)

/-- One recorded assignment of the simulator loop: which patient was
popped, from which iteration, the fast-queue length and server loads just
before the pop, the chosen server and the wait recorded for the patient. -/
structure SimEvent where
  pid : String
  dur : Int
  lane : String
  iter : Nat
  fastBefore : Nat
  slotsBefore : List Int
  idx : Nat
  assigned : Int
deriving DecidableEq

/-- One assignment: `idx = slots.index(min(slots)); wait[pid] = slots[idx]`. -/
def simStep (m : String × Int × String) (fastLen : Nat) (slots : List Int) (i : Nat) : SimEvent :=
  let idx := minIdx slots
  { pid := m.1, dur := m.2.1, lane := m.2.2, iter := i, fastBefore := fastLen,
    slotsBefore := slots, idx := idx, assigned := slots.getD idx 0 }

/-- `slots[idx] += dur` for `idx = slots.index(min(slots))`. -/
def simBump (slots : List Int) (dur : Int) : List Int :=
  let idx := minIdx slots
  slots.set idx (slots.getD idx 0 + dur)

/-- The assignment loop of `_simulate_wait_map`, instrumented to return the
sequence of assignment events in order.  `hasFast` is `bool(fast_queue)`
computed once before the loop; `i` is the 0-based iteration counter.  The
`fuel` argument makes the recursion structural; it is initialised to the
total number of queued patients, which is exactly the number of loop
iterations, since every iteration pops one patient from one of the lanes. -/
def simLoop (hasFast : Bool) :
    Nat → List (String × Int × String) → List (String × Int × String) →
      List Int → Nat → List SimEvent
  | 0, _, _, _, _ => []
  | _ + 1, [], [], _, _ => []
  | fuel + 1, f :: fs, otherQ, slots, i =>
    if hasFast && i % 3 == 0 then
      simStep f (fs.length + 1) slots i ::
        simLoop hasFast fuel fs otherQ (simBump slots f.2.1) (i + 1)
    else
      match otherQ with
      | o :: os =>
        simStep o (fs.length + 1) slots i ::
          simLoop hasFast fuel (f :: fs) os (simBump slots o.2.1) (i + 1)
      | [] =>
        simStep f (fs.length + 1) slots i ::
          simLoop hasFast fuel fs [] (simBump slots f.2.1) (i + 1)
  | fuel + 1, [], o :: os, slots, i =>
    simStep o 0 slots i :: simLoop hasFast fuel [] os (simBump slots o.2.1) (i + 1)

/-- `fast_queue`: patients whose lane is "Fast", in queue order. -/
def fastLaneOf (records : Records) (pids : List String) : List (String × Int × String) :=
  (with_meta records pids).filter (fun m => m.2.2 == "Fast")

/-- `other_queue`: everyone else, in queue order. -/
def otherLaneOf (records : Records) (pids : List String) : List (String × Int × String) :=
  (with_meta records pids).filter (fun m => m.2.2 != "Fast")

/-- The assignment events of `_simulate_wait_map records pids providers`:
`providers = max(1, providers)` servers all starting at load 0. -/
def simulate_events (records : Records) (pids : List String) (providers : Int) : List SimEvent :=
  let slots := List.replicate (max 1 providers).toNat (0 : Int)
  let fast_queue := fastLaneOf records pids
  let other_queue := otherLaneOf records pids
  simLoop (!fast_queue.isEmpty) (fast_queue.length + other_queue.length)
    fast_queue other_queue slots 0

/-- Python dict assignment `d[k] = v` on an association list: update in
place when the key is present, else append. -/
def dictSet {β : Type} (m : List (String × β)) (k : String) (v : β) : List (String × β) :=
  if (m.lookup k).isSome then m.map (fun kv => if kv.1 = k then (k, v) else kv)
  else m ++ [(k, v)]

/-- app.py `_simulate_wait_map`: the wait map accumulated by the loop.
(The early return for an empty pid list coincides with the general path, so
it is not special-cased here.) -/
def simulate_wait_map (records : Records) (pids : List String) (providers : Int) :
    List (String × Int) :=
  (simulate_events records pids providers).foldl (fun m e => dictSet m e.pid e.assigned) []

/-! ### QueueStateStore: shared state, `_kiosk_checkin_result`,
`api_staff_status`, `next_token` -/

/-- The module-level mutable state of app.py that the engine touches. -/
structure Store where
  patients : Records
  queue_order : List String
  provider_count : Int
  last_checkin_by_code : List (String × ℚ)
deriving DecidableEq

/-- app.py `_queue_active`. -/
def queue_active (s : Store) : List String :=
  s.queue_order.filter (fun pid => isActivePid s.patients pid)

/-- app.py `_wait_for_pid`: `waits.get(pid, 0)` over the freshly simulated
wait map of the active queue. -/
def wait_for_pid (s : Store) (pid : String) : Int :=
  ((simulate_wait_map s.patients (queue_active s) s.provider_count).lookup pid).getD 0

/-- Python `raw.split("|")` on the uppercased, stripped code. -/
def strSplitPipe (raw : String) : List String :=
  (raw.data.splitOn '|').map (fun cs => String.mk cs)

/-- One candidate resolution step of `_resolve_code`: a pid key match
first, then a case-insensitive token scan in insertion order. -/
def resolveCandidate (records : Records) (c : String) : Option String :=
  if (records.lookup c).isSome then some c
  else
    match records.find? (fun kv => strUpper kv.2.token == c) with
    | some kv => some kv.1
    | none => none

/-- app.py `_resolve_code`. -/
def resolve_code (records : Records) (code : String) : Option String :=
  let raw := strUpper (strTrim code)
  if raw = "" then none
  else
    let candidates :=
      if raw.data.contains '|' then
        ((strSplitPipe raw).map strTrim).filter (fun x => x ≠ "") ++ [raw]
      else [raw]
    candidates.findSome? (resolveCandidate records)

/-- `parsed = raw.split("|")[0].strip() if "|" in raw else raw` in
`_kiosk_checkin_result`. -/
def parsedOf (code : String) : String :=
  let raw := strUpper (strTrim code)
  if raw.data.contains '|' then strTrim (String.mk ((raw.data.splitOn '|').headD []))
  else raw

/-- `last_checkin_by_code.get(key, 0.0)`. -/
def lookupD (m : List (String × ℚ)) (k : String) (d : ℚ) : ℚ := (m.lookup k).getD d

/-- The cooldown guard: some nonempty key was seen less than 3 seconds
ago.  Iterating a Python set is modelled by `any`, which is insensitive to
iteration order because every hit returns the same cooldown response. -/
def cooldownHit (last : List (String × ℚ)) (keys : List String) (now : ℚ) : Bool :=
  keys.any (fun k => k != "" && decide (now - lookupD last k 0 < 3))

/-- `for key in {pid, token_key}: if key: last_checkin_by_code[key] = now`. -/
def setKeys (last : List (String × ℚ)) (keys : List String) (now : ℚ) : List (String × ℚ) :=
  keys.foldl (fun acc k => if k = "" then acc else dictSet acc k now) last

/-- The bounded-size eviction of stale cooldown entries. -/
def evictOld (last : List (String × ℚ)) (now : ℚ) : List (String × ℚ) :=
  if 400 < last.length then last.filter (fun kv => !decide (kv.2 < now - 60)) else last

/-- In-place record mutation `patients[pid][...] = ...`: the key set and
insertion order are unchanged. -/
def dictUpdate (m : Records) (k : String) (p : PatientRecord) : Records :=
  m.map (fun kv => if kv.1 = k then (k, p) else kv)

/-- The dictionary `_kiosk_checkin_result` returns. -/
structure CheckinResult where
  ok : Bool
  checked_in : Bool
  message : String
  token : String
  estimated_wait_min : Int
  display_name : Option String := none
deriving DecidableEq

/-- app.py `_kiosk_checkin_result`, as a function of the store, the scanned
code, the current clock value (`time.time()`) and the current ISO timestamp
(`datetime.utcnow().isoformat()`).  Database writes, audit events and queue
events are externally observable effects with no bearing on the engine
state and are omitted. -/
def kiosk_checkin_result (s : Store) (code : String) (now : ℚ) (nowIso : String) :
    CheckinResult × Store :=
  let parsed := parsedOf code
  match resolve_code s.patients code with
  | none =>
    ({ ok := false, checked_in := false, message := "Code not found.", token := "",
       estimated_wait_min := 0 }, s)
  | some pid =>
    match s.patients.lookup pid with
    | none =>
      ({ ok := false, checked_in := false, message := "Code not found.", token := "",
         estimated_wait_min := 0 }, s)
    | some p =>
      let token_key := strUpper p.token
      if cooldownHit s.last_checkin_by_code (List.dedup [pid, token_key, parsed]) now then
        ({ ok := false, checked_in := false,
           message := "Scan cooldown active. Please wait 3 seconds.", token := "",
           estimated_wait_min := 0 }, s)
      else
        let last2 := evictOld (setKeys s.last_checkin_by_code (List.dedup [pid, token_key]) now) now
        if p.status != "pending" then
          let s1 : Store := { s with last_checkin_by_code := last2 }
          ({ ok := true, checked_in := true, message := "Already checked in.",
             token := p.token, estimated_wait_min := wait_for_pid s1 pid,
             display_name := some (full_name p) }, s1)
        else
          -- The source also re-assigns priority and emergency_type to their
          -- own defaulted values, a no-op on records whose fields are total.
          let p1 := { p with status := "waiting", checked_in_at := some nowIso }
          let queue1 := if s.queue_order.contains pid then s.queue_order else s.queue_order ++ [pid]
          let s1 : Store :=
            { s with patients := dictUpdate s.patients pid p1, queue_order := queue1,
                     last_checkin_by_code := last2 }
          ({ ok := true, checked_in := true, message := "You are checked in.",
             token := p.token, estimated_wait_min := wait_for_pid s1 pid,
             display_name := some (full_name p1) }, s1)

/-- The error outcomes of `api_staff_status` (HTTP 404 and HTTP 400). -/
inductive StaffStatusError
  | notFound
  | invalidTransition
deriving DecidableEq

/-- app.py `api_staff_status`: both HTTPException paths are raised before
any mutation, so on error the store is returned unchanged. -/
def api_staff_status (s : Store) (pid status : String) :
    Except StaffStatusError Unit × Store :=
  if (s.patients.lookup pid).isNone then (.error .notFound, s)
  else if !(["called", "in_room", "done"].contains status) then (.error .invalidTransition, s)
  else
    match s.patients.lookup pid with
    | some p =>
      let patients1 := dictUpdate s.patients pid { p with status := status }
      let queue1 :=
        if status = "done" then s.queue_order.filter (fun x => x != pid) else s.queue_order
      (.ok (), { s with patients := patients1, queue_order := queue1 })
    | none => (.error .notFound, s)

/-- The candidate loop of `next_token`: the first drawn code that collides
with neither an existing patient token nor a previously issued token. -/
def next_token_loop (existing issued : List String) : List Nat → Option String
  | [] => none
  | d :: ds =>
    let candidate := "UC-" ++ Nat.repr d
    if !existing.contains candidate && !issued.contains candidate then some candidate
    else next_token_loop existing issued ds

/-- app.py `next_token`.  `draws` models the stream of
`random.randint(1000, 9999)` values (the loop consumes at most 500 of
them); `fallbackHex` models `uuid4().hex[:4].upper()`.  Returns the token
and the updated `issued_tokens` set. -/
def next_token (patients : Records) (issued_tokens : List String)
    (draws : List Nat) (fallbackHex : String) : String × List String :=
  let existing := patients.map (fun kv => strUpper kv.2.token)
  match next_token_loop existing issued_tokens (draws.take 500) with
  | some c => (c, c :: issued_tokens)
  | none =>
    let fallback := "UC-" ++ fallbackHex
    (fallback, fallback :: issued_tokens)

/-! ### Lemmas about the sort key comparison -/

theorem charsLe_total : ∀ a b : List Char, charsLe a b = true ∨ charsLe b a = true
  | [], _ => Or.inl rfl
  | _ :: _, [] => Or.inr rfl
  | a :: as, b :: bs => by
    by_cases hab : a < b
    · left; simp [charsLe, hab]
    · by_cases hba : b < a
      · right; simp [charsLe, hba]
      · have heq : a = b := le_antisymm (not_lt.mp hba) (not_lt.mp hab)
        subst heq
        rcases charsLe_total as bs with h | h
        · left; simp [charsLe, h]
        · right; simp [charsLe, h]

theorem charsLe_trans :
    ∀ {a b c : List Char}, charsLe a b = true → charsLe b c = true → charsLe a c = true
  | [], _, _, _, _ => rfl
  | _ :: _, [], _, h, _ => by simp [charsLe] at h
  | _ :: _, _ :: _, [], _, h => by simp [charsLe] at h
  | a :: as, b :: bs, c :: cs, h1, h2 => by
    simp only [charsLe, Bool.or_eq_true, Bool.and_eq_true, decide_eq_true_eq,
      beq_iff_eq] at h1 h2 ⊢
    rcases h1 with h1 | ⟨rfl, h1⟩
    · rcases h2 with h2 | ⟨rfl, h2⟩
      · exact Or.inl (lt_trans h1 h2)
      · exact Or.inl h1
    · rcases h2 with h2 | ⟨rfl, h2⟩
      · exact Or.inl h2
      · exact Or.inr ⟨rfl, charsLe_trans h1 h2⟩

theorem keyLe_total (records : Records) : ∀ a b, keyLe records a b ∨ keyLe records b a := by
  intro a b
  rcases Nat.lt_trichotomy (pidKey records a).1 (pidKey records b).1 with h | h | h
  · exact Or.inl (Or.inl h)
  · rcases charsLe_total (pidKey records a).2.data (pidKey records b).2.data with hc | hc
    · exact Or.inl (Or.inr ⟨h, hc⟩)
    · exact Or.inr (Or.inr ⟨h.symm, hc⟩)
  · exact Or.inr (Or.inl h)

theorem keyLe_trans (records : Records) :
    ∀ a b c, keyLe records a b → keyLe records b c → keyLe records a c := by
  intro a b c h1 h2
  rcases h1 with h1 | ⟨he1, hc1⟩
  · rcases h2 with h2 | ⟨he2, _⟩
    · exact Or.inl (Nat.lt_trans h1 h2)
    · exact Or.inl (he2 ▸ h1)
  · rcases h2 with h2 | ⟨he2, hc2⟩
    · exact Or.inl (he1 ▸ h2)
    · exact Or.inr ⟨he1.trans he2, charsLe_trans hc1 hc2⟩

theorem reorder_eq (records : Records) (order : List String) :
    reorder_queue_by_priority records order =
      List.insertionSort (keyLe records) (order.filter (fun pid => isActivePid records pid))
        ++ order.filter (fun pid => !isActivePid records pid) := rfl

/-- Claim C1: `_reorder_queue_by_priority` partitions the queue ids into an
active part (status not "done" and record exists) and an inactive tail kept
in its own order, stably sorts the active part ascending by the key
(priorityRank(priority), checkedInAt) with high = 0, medium = 1, low = 2
and a missing check-in timestamp comparing as the empty string (which sorts
first), and returns sorted active part ++ inactive tail. -/
theorem reorder_partitions_and_sorts (records : Records) (order : List String) :
    ∃ S : List String,
      reorder_queue_by_priority records order
          = S ++ order.filter (fun pid => !isActivePid records pid) ∧
      S.Perm (order.filter (fun pid => isActivePid records pid)) ∧
      S.Sorted (keyLe records) ∧
      (∀ a b : String, keyLe records a b →
        [a, b].Sublist (order.filter (fun pid => isActivePid records pid)) →
          [a, b].Sublist S) ∧
      PRIORITY_ORDER "high" = 0 ∧ PRIORITY_ORDER "medium" = 1 ∧ PRIORITY_ORDER "low" = 2 ∧
      (∀ p : PatientRecord, p.checked_in_at = none → (recordKey p).2 = "") ∧
      (∀ cs : List Char, charsLe "".data cs = true) := by
  haveI : IsTotal String (keyLe records) := ⟨keyLe_total records⟩
  haveI : IsTrans String (keyLe records) := ⟨keyLe_trans records⟩
  refine ⟨List.insertionSort (keyLe records)
      (order.filter (fun pid => isActivePid records pid)),
    rfl, List.perm_insertionSort _ _, List.sorted_insertionSort _ _, ?_, rfl, rfl, rfl,
    ?_, fun _ => rfl⟩
  · exact fun a b hab hsub => List.pair_sublist_insertionSort hab hsub
  · intro p hp
    simp [recordKey, hp]

/-- Claim C9: `_reorder_queue_by_priority` is idempotent: applying it twice
to any record map and queue order yields the same order as applying it
once. -/
theorem reorder_idempotent (records : Records) (order : List String) :
    reorder_queue_by_priority records (reorder_queue_by_priority records order)
      = reorder_queue_by_priority records order := by
  haveI : IsTotal String (keyLe records) := ⟨keyLe_total records⟩
  haveI : IsTrans String (keyLe records) := ⟨keyLe_trans records⟩
  simp only [reorder_eq]
  have hmemS : ∀ x ∈ List.insertionSort (keyLe records)
      (order.filter (fun pid => isActivePid records pid)),
      isActivePid records x = true := by
    intro x hx
    have hxf : x ∈ order.filter (fun pid => isActivePid records pid) :=
      (List.perm_insertionSort (keyLe records) _).mem_iff.mp hx
    exact (List.mem_filter.mp hxf).2
  have hmemT : ∀ x ∈ order.filter (fun pid => !isActivePid records pid),
      isActivePid records x = false := by
    intro x hx
    have := (List.mem_filter.mp hx).2
    simpa using this
  have hnil1 : (order.filter (fun pid => !isActivePid records pid)).filter
      (fun pid => isActivePid records pid) = [] :=
    List.filter_eq_nil_iff.mpr (fun a ha => by simp [hmemT a ha])
  have hnil2 : (List.insertionSort (keyLe records)
      (order.filter (fun pid => isActivePid records pid))).filter
      (fun pid => !isActivePid records pid) = [] :=
    List.filter_eq_nil_iff.mpr (fun a ha => by simp [hmemS a ha])
  have hfilter1 :
      (List.insertionSort (keyLe records) (order.filter (fun pid => isActivePid records pid))
        ++ order.filter (fun pid => !isActivePid records pid)).filter
          (fun pid => isActivePid records pid)
      = List.insertionSort (keyLe records)
          (order.filter (fun pid => isActivePid records pid)) := by
    rw [List.filter_append, List.filter_eq_self.mpr hmemS, hnil1, List.append_nil]
  have hfilter2 :
      (List.insertionSort (keyLe records) (order.filter (fun pid => isActivePid records pid))
        ++ order.filter (fun pid => !isActivePid records pid)).filter
          (fun pid => !isActivePid records pid)
      = order.filter (fun pid => !isActivePid records pid) := by
    rw [List.filter_append, hnil2,
      List.filter_eq_self.mpr (fun a ha => by simp [hmemT a ha]), List.nil_append]
  rw [hfilter1, hfilter2,
    (List.sorted_insertionSort (keyLe records) _).insertionSort_eq]

/-! ### PriorityClassifier theorems (claim C2) -/

/-- The vitals threshold rules in the spec's stated order, each a test on
the snapshot together with the resulting (priority, label).  "First match
wins" is expressed by `List.find?` below. -/
def vitalRules : List ((Vitals → Bool) × String × String) :=
  [(fun v => optLt v.spo2 92, "high", "low_oxygen"),
   (fun v => optGt v.hr 130 || optLt v.hr 45, "high", "critical_heart_rate"),
   (fun v => optGt v.bp_sys 180 || optLt v.bp_sys 85, "high", "critical_bp"),
   (fun v => optGt v.temp_c (395/10) || optLt v.temp_c 35, "high", "critical_temp"),
   (fun v => optLt v.spo2 95, "medium", ""),
   (fun v => optGt v.hr 110 || optLt v.hr 50, "medium", ""),
   (fun v => optGt v.bp_sys 160 || optLt v.bp_sys 95, "medium", "")]

/-- The classifier as the amended claim describes it: (1) the first keyword
of the fixed severe list (in match order) contained in the lowercased
symptom text gives priority high with the normalized keyword as label;
(2) otherwise non-empty red flags give (high, emergency_symptoms);
(3) otherwise the vitals thresholds are evaluated in the stated order with
the first match winning; (4) otherwise (low, ""). -/
def classifySpec (vitals : Option Vitals) (symptoms : String) (red_flags : List String) :
    String × String :=
  match severe_keywords.find? (fun kw => strContains (strLower symptoms) kw) with
  | some kw => ("high", normalizeKeyword kw)
  | none =>
    if red_flags ≠ [] then ("high", "emergency_symptoms")
    else
      match vitals with
      | some v =>
        match vitalRules.find? (fun rule => rule.1 v) with
        | some rule => (rule.2.1, rule.2.2)
        | none => ("low", "")
      | none => ("low", "")

theorem firstSevereMatch_eq_find (t : String) :
    ∀ l, firstSevereMatch t l = l.find? (fun kw => strContains t kw)
  | [] => rfl
  | kw :: rest => by
    by_cases h : strContains t kw
    · simp [firstSevereMatch, List.find?_cons, h]
    · simp [firstSevereMatch, List.find?_cons, h, firstSevereMatch_eq_find t rest]

/-- Claim C2 (amended): the classifier agrees everywhere with the spec-side
description whose severe-keyword list is the one in the code. -/
theorem classify_matches_amended_spec
    (vitals : Option Vitals) (symptoms : String) (red_flags : List String) :
    classify_priority_from_vitals_and_symptoms vitals symptoms red_flags
      = classifySpec vitals symptoms red_flags := by
  unfold classify_priority_from_vitals_and_symptoms classifySpec
  simp only [firstSevereMatch_eq_find]
  cases severe_keywords.find? (fun kw => strContains (strLower symptoms) kw) with
  | some kw => rfl
  | none =>
    cases red_flags with
    | cons r rs => simp
    | nil =>
      simp only [List.isEmpty_nil, Bool.not_true, Bool.false_eq_true, if_false,
        ne_eq, not_true_eq_false, if_neg, reduceIte]
      cases vitals with
      | none => rfl
      | some v =>
        by_cases h1 : optLt v.spo2 92 = true
        · simp [vitalRules, List.find?_cons, h1]
        · by_cases h2 : (optGt v.hr 130 || optLt v.hr 45) = true
          · simp [vitalRules, List.find?_cons, h1, h2]
          · by_cases h3 : (optGt v.bp_sys 180 || optLt v.bp_sys 85) = true
            · simp [vitalRules, List.find?_cons, h1, h2, h3]
            · by_cases h4 : (optGt v.temp_c (395/10) || optLt v.temp_c 35) = true
              · simp [vitalRules, List.find?_cons, h1, h2, h3, h4]
              · by_cases h5 : optLt v.spo2 95 = true
                · simp [vitalRules, List.find?_cons, h1, h2, h3, h4, h5]
                · by_cases h6 : (optGt v.hr 110 || optLt v.hr 50) = true
                  · simp [vitalRules, List.find?_cons, h1, h2, h3, h4, h5, h6]
                  · by_cases h7 : (optGt v.bp_sys 160 || optLt v.bp_sys 95) = true
                    · simp [vitalRules, List.find?_cons, h1, h2, h3, h4, h5, h6, h7]
                    · simp [vitalRules, List.find?_cons, h1, h2, h3, h4, h5, h6, h7]

/-- Claim C2 counterexample: the symptom text "heavy bleeding" contains the
keyword "heavy bleeding" from the claimed list, yet the classifier (with no
red flags and no vitals) returns ("low", ""), not priority "high" with
label "heavy_bleeding": the code matches "bleeding heavily" instead. -/
theorem classify_claimed_keyword_fails :
    strContains (strLower "heavy bleeding") "heavy bleeding" = true ∧
    classify_priority_from_vitals_and_symptoms none "heavy bleeding" [] = ("low", "") ∧
    (("low" : String), ("" : String)) ≠ ("high", "heavy_bleeding") := by
  exact ⟨by decide, by decide, by decide⟩

/-! ### WaitTimeSimulator lemmas (claims C5, C6, C10) -/

theorem foldl_min_le_init : ∀ (xs : List Int) (a : Int), xs.foldl min a ≤ a
  | [], a => le_refl a
  | x :: xs, a => by
    simpa using le_trans (foldl_min_le_init xs (min a x)) (min_le_left a x)

theorem foldl_min_le_mem : ∀ (xs : List Int) (a x : Int), x ∈ xs → xs.foldl min a ≤ x
  | x' :: xs, a, x, h => by
    rcases List.mem_cons.mp h with rfl | h
    · simpa using le_trans (foldl_min_le_init xs (min a x)) (min_le_right a x)
    · simpa using foldl_min_le_mem xs (min a x') x h

theorem foldl_min_mem : ∀ (xs : List Int) (a : Int), xs.foldl min a = a ∨ xs.foldl min a ∈ xs
  | [], _ => Or.inl rfl
  | x :: xs, a => by
    simp only [List.foldl_cons]
    rcases foldl_min_mem xs (min a x) with h | h
    · rcases le_total a x with hax | hxa
      · left; rw [h, min_eq_left hax]
      · right; rw [h, min_eq_right hxa]; exact List.mem_cons_self x xs
    · right; exact List.mem_cons_of_mem x h

theorem listMin_mem : ∀ {l : List Int}, l ≠ [] → listMin l ∈ l
  | [], h => absurd rfl h
  | x :: xs, _ => by
    simp only [listMin]
    rcases foldl_min_mem xs x with h | h
    · rw [h]; exact List.mem_cons_self x xs
    · exact List.mem_cons_of_mem x h

theorem listMin_le {l : List Int} : ∀ x ∈ l, listMin l ≤ x := by
  intro x hx
  cases l with
  | nil => cases hx
  | cons y ys =>
    rcases List.mem_cons.mp hx with rfl | hx
    · exact foldl_min_le_init ys x
    · exact foldl_min_le_mem ys y x hx

theorem getD_minIdx {l : List Int} (h : l ≠ []) : l.getD (minIdx l) 0 = listMin l := by
  have hm : listMin l ∈ l := listMin_mem h
  have hlt : List.indexOf (listMin l) l < l.length := List.indexOf_lt_length.mpr hm
  rw [minIdx, List.getD_eq_getElem?_getD, List.getElem?_eq_getElem hlt, Option.getD_some,
    List.getElem_indexOf hlt]

theorem simLoop_length (hasFast : Bool) :
    ∀ (fuel : Nat) (fastQ otherQ : List (String × Int × String)) (slots : List Int) (i : Nat),
      (simLoop hasFast fuel fastQ otherQ slots i).length
        = min fuel (fastQ.length + otherQ.length)
  | 0, _, _, _, _ => by simp [simLoop]
  | fuel + 1, [], [], slots, i => by simp [simLoop]
  | fuel + 1, f :: fs, otherQ, slots, i => by
    by_cases h : (hasFast && i % 3 == 0) = true
    · simp only [simLoop, h, if_true, List.length_cons, simLoop_length hasFast fuel]
      omega
    · cases otherQ with
      | cons o os =>
        simp only [simLoop, h, if_false, Bool.false_eq_true, List.length_cons,
          simLoop_length hasFast fuel]
        omega
      | nil =>
        simp only [simLoop, h, if_false, Bool.false_eq_true, List.length_cons,
          simLoop_length hasFast fuel]
        omega
  | fuel + 1, [], o :: os, slots, i => by
    simp only [simLoop, List.length_cons, simLoop_length hasFast fuel]
    omega

theorem length_filter_partition (l : List (String × Int × String)) :
    (l.filter (fun m => m.2.2 == "Fast")).length
      + (l.filter (fun m => m.2.2 != "Fast")).length = l.length := by
  induction l with
  | nil => rfl
  | cons a t ih =>
    by_cases h : a.2.2 = "Fast"
    · simp [List.filter_cons, h]; omega
    · simp [List.filter_cons, h]; omega

theorem withMetaEntry_fst (records : Records) (pid : String) :
    (withMetaEntry records pid).1 = pid := by
  cases h : records.lookup pid <;> simp [withMetaEntry, h]

/-- Claim C10: the simulator loop terminates after exactly one iteration
per input id: the event trace has the same length as the input id list. -/
theorem simulate_events_length (records : Records) (pids : List String) (providers : Int) :
    (simulate_events records pids providers).length = pids.length := by
  show (simLoop _ ((fastLaneOf records pids).length + (otherLaneOf records pids).length)
      (fastLaneOf records pids) (otherLaneOf records pids) _ 0).length = pids.length
  rw [simLoop_length, Nat.min_self]
  show ((with_meta records pids).filter (fun m => m.2.2 == "Fast")).length
      + ((with_meta records pids).filter (fun m => m.2.2 != "Fast")).length = pids.length
  rw [length_filter_partition, with_meta, List.length_map]

theorem simBump_ne_nil {slots : List Int} (h : slots ≠ []) (d : Int) : simBump slots d ≠ [] := by
  cases slots with
  | nil => exact absurd rfl h
  | cons x xs =>
    simp only [simBump]
    cases minIdx (x :: xs) with
    | zero => simp [List.set]
    | succ n => simp [List.set]

theorem getD_nonneg {l : List Int} (h : ∀ x ∈ l, 0 ≤ x) (n : Nat) : 0 ≤ l.getD n 0 := by
  rw [List.getD_eq_getElem?_getD]
  cases hg : l[n]? with
  | none => simp
  | some x => simpa using h x (List.getElem?_mem hg)

theorem simBump_nonneg {slots : List Int} (h : ∀ x ∈ slots, 0 ≤ x) {d : Int} (hd : 0 ≤ d) :
    ∀ x ∈ simBump slots d, 0 ≤ x := by
  intro x hx
  rcases List.mem_or_eq_of_mem_set hx with hx' | rfl
  · exact h x hx'
  · exact add_nonneg (getD_nonneg h _) hd

/-- While any fast-lane patient remains, every iteration whose counter is
divisible by 3 pops a fast-lane patient (given the reservation is active,
i.e. `hasFast`). -/
theorem simLoop_reserved (hasFast : Bool) :
    ∀ (fuel : Nat) (fastQ otherQ : List (String × Int × String)) (slots : List Int) (i : Nat),
      (∀ m ∈ fastQ, m.2.2 = "Fast") →
      ∀ e ∈ simLoop hasFast fuel fastQ otherQ slots i,
        e.iter % 3 = 0 → 0 < e.fastBefore → hasFast = true → e.lane = "Fast"
  | 0, _, _, _, _, _, e, he => by simp [simLoop] at he
  | _ + 1, [], [], _, _, _, e, he => by simp [simLoop] at he
  | fuel + 1, f :: fs, otherQ, slots, i, hlane, e, he => by
    simp only [simLoop] at he
    by_cases h : (hasFast && i % 3 == 0) = true
    · rw [if_pos h] at he
      rcases List.mem_cons.mp he with rfl | he'
      · intro _ _ _
        exact hlane f (List.mem_cons_self f fs)
      · exact simLoop_reserved hasFast fuel fs otherQ _ _
          (fun m hm => hlane m (List.mem_cons_of_mem f hm)) e he'
    · rw [if_neg h] at he
      cases otherQ with
      | cons o os =>
        rcases List.mem_cons.mp he with rfl | he'
        · intro hi _ hf
          exfalso
          apply h
          simp only [simStep] at hi
          simp [hf, hi]
        · exact simLoop_reserved hasFast fuel (f :: fs) os _ _ hlane e he'
      | nil =>
        rcases List.mem_cons.mp he with rfl | he'
        · intro _ _ _
          exact hlane f (List.mem_cons_self f fs)
        · exact simLoop_reserved hasFast fuel fs [] _ _
            (fun m hm => hlane m (List.mem_cons_of_mem f hm)) e he'
  | fuel + 1, [], o :: os, slots, i, _, e, he => by
    simp only [simLoop] at he
    rcases List.mem_cons.mp he with rfl | he'
    · intro _ hf _
      simp only [simStep] at hf
      exact absurd hf (lt_irrefl 0)
    · exact simLoop_reserved hasFast fuel [] os _ _ (fun m hm => by cases hm) e he'

/-- Every popped patient is assigned to the server with the current
minimum accumulated load, and that load is the recorded wait. -/
theorem simLoop_minload (hasFast : Bool) :
    ∀ (fuel : Nat) (fastQ otherQ : List (String × Int × String)) (slots : List Int) (i : Nat),
      slots ≠ [] →
      ∀ e ∈ simLoop hasFast fuel fastQ otherQ slots i,
        e.idx = minIdx e.slotsBefore ∧ e.slotsBefore ≠ [] ∧
        e.assigned = listMin e.slotsBefore ∧
        e.slotsBefore.getD e.idx 0 = listMin e.slotsBefore
  | 0, _, _, _, _, _, e, he => by simp [simLoop] at he
  | _ + 1, [], [], _, _, _, e, he => by simp [simLoop] at he
  | fuel + 1, f :: fs, otherQ, slots, i, hne, e, he => by
    simp only [simLoop] at he
    by_cases h : (hasFast && i % 3 == 0) = true
    · rw [if_pos h] at he
      rcases List.mem_cons.mp he with rfl | he'
      · exact ⟨rfl, hne, getD_minIdx hne, getD_minIdx hne⟩
      · exact simLoop_minload hasFast fuel fs otherQ _ _ (simBump_ne_nil hne _) e he'
    · rw [if_neg h] at he
      cases otherQ with
      | cons o os =>
        rcases List.mem_cons.mp he with rfl | he'
        · exact ⟨rfl, hne, getD_minIdx hne, getD_minIdx hne⟩
        · exact simLoop_minload hasFast fuel (f :: fs) os _ _ (simBump_ne_nil hne _) e he'
      | nil =>
        rcases List.mem_cons.mp he with rfl | he'
        · exact ⟨rfl, hne, getD_minIdx hne, getD_minIdx hne⟩
        · exact simLoop_minload hasFast fuel fs [] _ _ (simBump_ne_nil hne _) e he'
  | fuel + 1, [], o :: os, slots, i, hne, e, he => by
    simp only [simLoop] at he
    rcases List.mem_cons.mp he with rfl | he'
    · exact ⟨rfl, hne, getD_minIdx hne, getD_minIdx hne⟩
    · exact simLoop_minload hasFast fuel [] os _ _ (simBump_ne_nil hne _) e he'

/-- All recorded waits are non-negative when server loads start
non-negative and all visit durations are non-negative. -/
theorem simLoop_nonneg (hasFast : Bool) :
    ∀ (fuel : Nat) (fastQ otherQ : List (String × Int × String)) (slots : List Int) (i : Nat),
      (∀ x ∈ slots, 0 ≤ x) →
      (∀ m ∈ fastQ, 0 ≤ m.2.1) → (∀ m ∈ otherQ, 0 ≤ m.2.1) →
      ∀ e ∈ simLoop hasFast fuel fastQ otherQ slots i, 0 ≤ e.assigned
  | 0, _, _, _, _, _, _, _, e, he => by simp [simLoop] at he
  | _ + 1, [], [], _, _, _, _, _, e, he => by simp [simLoop] at he
  | fuel + 1, f :: fs, otherQ, slots, i, hs, hf, ho, e, he => by
    simp only [simLoop] at he
    by_cases h : (hasFast && i % 3 == 0) = true
    · rw [if_pos h] at he
      rcases List.mem_cons.mp he with rfl | he'
      · exact getD_nonneg hs _
      · exact simLoop_nonneg hasFast fuel fs otherQ _ _
          (simBump_nonneg hs (hf f (List.mem_cons_self f fs)))
          (fun m hm => hf m (List.mem_cons_of_mem f hm)) ho e he'
    · rw [if_neg h] at he
      cases otherQ with
      | cons o os =>
        rcases List.mem_cons.mp he with rfl | he'
        · exact getD_nonneg hs _
        · exact simLoop_nonneg hasFast fuel (f :: fs) os _ _
            (simBump_nonneg hs (ho o (List.mem_cons_self o os))) hf
            (fun m hm => ho m (List.mem_cons_of_mem o hm)) e he'
      | nil =>
        rcases List.mem_cons.mp he with rfl | he'
        · exact getD_nonneg hs _
        · exact simLoop_nonneg hasFast fuel fs [] _ _
            (simBump_nonneg hs (hf f (List.mem_cons_self f fs)))
            (fun m hm => hf m (List.mem_cons_of_mem f hm)) (fun m hm => by cases hm) e he'
  | fuel + 1, [], o :: os, slots, i, hs, hf, ho, e, he => by
    simp only [simLoop] at he
    rcases List.mem_cons.mp he with rfl | he'
    · exact getD_nonneg hs _
    · exact simLoop_nonneg hasFast fuel [] os _ _
        (simBump_nonneg hs (ho o (List.mem_cons_self o os))) (fun m hm => by cases hm)
        (fun m hm => ho m (List.mem_cons_of_mem o hm)) e he'

/-- With fuel equal to the number of queued patients, the trace pops each
queued patient exactly once. -/
theorem simLoop_pids (hasFast : Bool) :
    ∀ (fuel : Nat) (fastQ otherQ : List (String × Int × String)) (slots : List Int) (i : Nat),
      fuel = fastQ.length + otherQ.length →
      ((simLoop hasFast fuel fastQ otherQ slots i).map (fun e => e.pid)).Perm
        ((fastQ ++ otherQ).map (fun m => m.1))
  | 0, fastQ, otherQ, _, _, h => by
    cases fastQ with
    | cons f fs => simp at h; omega
    | nil =>
      cases otherQ with
      | cons o os => simp at h
      | nil => simp [simLoop]
  | _ + 1, [], [], _, _, h => by simp at h
  | fuel + 1, f :: fs, otherQ, slots, i, h => by
    have hf : fuel = fs.length + otherQ.length := by simp at h; omega
    by_cases hb : (hasFast && i % 3 == 0) = true
    · simp only [simLoop]
      rw [if_pos hb]
      simp only [List.map_cons]
      exact (simLoop_pids hasFast fuel fs otherQ _ _ hf).cons f.1
    · simp only [simLoop]
      rw [if_neg hb]
      cases otherQ with
      | cons o os =>
        have hf2 : fuel = (f :: fs).length + os.length := by simp at h ⊢; omega
        simp only [List.map_cons]
        refine ((simLoop_pids hasFast fuel (f :: fs) os _ _ hf2).cons o.1).trans ?_
        simp only [List.map_append, List.map_cons]
        exact List.perm_middle.symm
      | nil =>
        simp only [List.map_cons]
        exact (simLoop_pids hasFast fuel fs [] _ _ (by simpa using hf)).cons f.1
  | fuel + 1, [], o :: os, slots, i, h => by
    have hf : fuel = ([] : List (String × Int × String)).length + os.length := by
      simp at h ⊢; omega
    simp only [simLoop, List.map_cons]
    exact (simLoop_pids hasFast fuel [] os _ _ hf).cons o.1

/-! ### Association list lemmas for Python dict semantics -/

theorem lookup_updMap_self {β : Type} (k : String) (v : β) :
    ∀ m : List (String × β),
      ((m.map (fun kv => if kv.1 = k then (k, v) else kv)).lookup k)
        = (m.lookup k).map (fun _ => v)
  | [] => rfl
  | (k1, w1) :: t => by
    by_cases h : k1 = k
    · subst h
      have hhead : (if ((k1, w1) : String × β).1 = k1 then (k1, v) else (k1, w1))
          = (k1, v) := by simp
      rw [List.map_cons, hhead]
      simp [List.lookup]
    · have hhead : (if ((k1, w1) : String × β).1 = k then (k, v) else (k1, w1))
          = (k1, w1) := by simp [h]
      have hne : (k == k1) = false := by
        simp only [beq_eq_false_iff_ne, ne_eq]
        exact fun hh => h hh.symm
      rw [List.map_cons, hhead]
      simp only [List.lookup, hne]
      exact lookup_updMap_self k v t

theorem lookup_updMap_ne {β : Type} (k k' : String) (v : β) (hk : k' ≠ k) :
    ∀ m : List (String × β),
      ((m.map (fun kv => if kv.1 = k then (k, v) else kv)).lookup k') = m.lookup k'
  | [] => rfl
  | (k1, w1) :: t => by
    by_cases h : k1 = k
    · subst h
      have hhead : (if ((k1, w1) : String × β).1 = k1 then (k1, v) else (k1, w1))
          = (k1, v) := by simp
      have hne : (k' == k1) = false := by
        simp only [beq_eq_false_iff_ne, ne_eq]
        exact hk
      rw [List.map_cons, hhead]
      simp only [List.lookup, hne]
      exact lookup_updMap_ne k1 k' v hk t
    · have hhead : (if ((k1, w1) : String × β).1 = k then (k, v) else (k1, w1))
          = (k1, w1) := by simp [h]
      rw [List.map_cons, hhead]
      by_cases h2 : k' = k1
      · subst h2
        simp [List.lookup]
      · have hne : (k' == k1) = false := by
          simp only [beq_eq_false_iff_ne, ne_eq]
          exact h2
        simp only [List.lookup, hne]
        exact lookup_updMap_ne k k' v hk t

theorem lookup_cons_eq {β : Type} (k : String) (v : β) (t : List (String × β)) :
    ((k, v) :: t).lookup k = some v := by
  simp [List.lookup]

theorem lookup_cons_ne {β : Type} {k k1 : String} (w : β) (t : List (String × β))
    (h : k ≠ k1) : ((k1, w) :: t).lookup k = t.lookup k := by
  simp [List.lookup, beq_eq_false_iff_ne.mpr h]

theorem lookup_append_of_none {β : Type} {k : String} :
    ∀ {m : List (String × β)} (l : List (String × β)), m.lookup k = none →
      (m ++ l).lookup k = l.lookup k
  | [], _, _ => rfl
  | (k1, w1) :: t, l, h => by
    by_cases h2 : k = k1
    · subst h2
      rw [lookup_cons_eq] at h
      cases h
    · rw [lookup_cons_ne _ _ h2] at h
      rw [List.cons_append, lookup_cons_ne _ _ h2]
      exact lookup_append_of_none l h

theorem lookup_append_of_some {β : Type} {k : String} :
    ∀ {m : List (String × β)} (l : List (String × β)), (m.lookup k).isSome = true →
      (m ++ l).lookup k = m.lookup k
  | [], _, h => by simp [List.lookup] at h
  | (k1, w1) :: t, l, h => by
    by_cases h2 : k = k1
    · subst h2
      rw [List.cons_append, lookup_cons_eq, lookup_cons_eq]
    · rw [lookup_cons_ne _ _ h2] at h
      rw [List.cons_append, lookup_cons_ne _ _ h2, lookup_cons_ne _ _ h2]
      exact lookup_append_of_some l h

theorem dictSet_lookup_self {β : Type} (m : List (String × β)) (k : String) (v : β) :
    (dictSet m k v).lookup k = some v := by
  unfold dictSet
  by_cases h : (m.lookup k).isSome = true
  · rw [if_pos h, lookup_updMap_self]
    rcases Option.isSome_iff_exists.mp h with ⟨w, hw⟩
    rw [hw]; rfl
  · rw [if_neg h]
    have hnone : m.lookup k = none := Option.not_isSome_iff_eq_none.mp (by simpa using h)
    rw [lookup_append_of_none _ hnone, lookup_cons_eq]

theorem dictSet_lookup_ne {β : Type} (m : List (String × β)) (k k' : String) (v : β)
    (hk : k' ≠ k) : (dictSet m k v).lookup k' = m.lookup k' := by
  unfold dictSet
  by_cases h : (m.lookup k).isSome = true
  · rw [if_pos h, lookup_updMap_ne _ _ _ hk]
  · rw [if_neg h]
    cases h2 : m.lookup k' with
    | some w => rw [lookup_append_of_some _ (by simp [h2]), h2]
    | none =>
      rw [lookup_append_of_none _ h2, lookup_cons_ne _ _ hk]
      rfl

theorem dictSet_mem {β : Type} {m : List (String × β)} {k : String} {v : β} {kv : String × β}
    (h : kv ∈ dictSet m k v) : kv = (k, v) ∨ kv ∈ m := by
  unfold dictSet at h
  by_cases hp : (m.lookup k).isSome = true
  · rw [if_pos hp] at h
    rcases List.mem_map.mp h with ⟨kv', hkv', heq⟩
    by_cases hh : kv'.1 = k
    · left; rw [← heq]; simp [hh]
    · right; rw [← heq]; simpa [hh] using hkv'
  · rw [if_neg hp] at h
    rcases List.mem_append.mp h with h | h
    · exact Or.inr h
    · left; simpa using h

theorem lookup_none_iff_not_mem_keys {β : Type} {k : String} :
    ∀ {m : List (String × β)}, m.lookup k = none ↔ k ∉ m.map Prod.fst
  | [] => by simp [List.lookup]
  | (k1, w1) :: t => by
    by_cases h : k = k1
    · subst h
      rw [lookup_cons_eq]
      simp
    · rw [lookup_cons_ne _ _ h]
      simp [h, lookup_none_iff_not_mem_keys (m := t)]

theorem dictSet_keys_nodup {β : Type} {m : List (String × β)} (k : String) (v : β)
    (h : (m.map Prod.fst).Nodup) : ((dictSet m k v).map Prod.fst).Nodup := by
  unfold dictSet
  by_cases hp : (m.lookup k).isSome = true
  · rw [if_pos hp]
    have hkeys : ((m.map (fun kv => if kv.1 = k then (k, v) else kv)).map Prod.fst)
        = m.map Prod.fst := by
      rw [List.map_map]
      apply List.map_congr_left
      intro kv _
      by_cases hh : kv.1 = k <;> simp [hh]
    rw [hkeys]; exact h
  · rw [if_neg hp]
    have hnm : k ∉ m.map Prod.fst :=
      lookup_none_iff_not_mem_keys.mp (Option.not_isSome_iff_eq_none.mp (by simpa using hp))
    rw [List.map_append]
    simp [List.nodup_append, h, hnm]

theorem lookup_mem {β : Type} {k : String} {v : β} :
    ∀ {m : List (String × β)}, m.lookup k = some v → (k, v) ∈ m
  | [], h => by simp [List.lookup] at h
  | (k1, w1) :: t, h => by
    by_cases h2 : k = k1
    · subst h2
      rw [lookup_cons_eq] at h
      cases h
      exact List.mem_cons_self _ _
    · rw [lookup_cons_ne _ _ h2] at h
      exact List.mem_cons_of_mem _ (lookup_mem h)

theorem waitFold_lookup_isSome :
    ∀ (es : List SimEvent) (m : List (String × Int)) (pid : String),
      pid ∈ es.map (fun e => e.pid) ∨ (m.lookup pid).isSome = true →
      ((es.foldl (fun m e => dictSet m e.pid e.assigned) m).lookup pid).isSome = true
  | [], m, pid, h => by
    rcases h with h | h
    · cases h
    · exact h
  | e :: es, m, pid, h => by
    simp only [List.foldl_cons]
    apply waitFold_lookup_isSome es
    by_cases hp : pid = e.pid
    · right; subst hp; rw [dictSet_lookup_self]; rfl
    · rcases h with h | h
      · rcases List.mem_map.mp h with ⟨e', he', heq⟩
        rcases List.mem_cons.mp he' with rfl | he''
        · exact absurd heq.symm hp
        · left; exact List.mem_map.mpr ⟨e', he'', heq⟩
      · right; rw [dictSet_lookup_ne _ _ _ _ hp]; exact h
  termination_by es => es.length

theorem waitFold_values_nonneg :
    ∀ (es : List SimEvent) (m : List (String × Int)),
      (∀ e ∈ es, 0 ≤ e.assigned) → (∀ kv ∈ m, 0 ≤ kv.2) →
      ∀ kv ∈ es.foldl (fun m e => dictSet m e.pid e.assigned) m, 0 ≤ kv.2
  | [], m, _, hm, kv, hkv => hm kv hkv
  | e :: es, m, hes, hm, kv, hkv => by
    simp only [List.foldl_cons] at hkv
    refine waitFold_values_nonneg es _ (fun e' he' => hes e' (List.mem_cons_of_mem e he'))
      ?_ kv hkv
    intro kv' hkv'
    rcases dictSet_mem hkv' with rfl | hkv''
    · exact hes e (List.mem_cons_self e es)
    · exact hm kv' hkv''

theorem waitFold_keys_nodup :
    ∀ (es : List SimEvent) (m : List (String × Int)),
      (m.map Prod.fst).Nodup →
      ((es.foldl (fun m e => dictSet m e.pid e.assigned) m).map Prod.fst).Nodup
  | [], _, hm => hm
  | e :: es, m, hm => by
    simp only [List.foldl_cons]
    exact waitFold_keys_nodup es _ (dictSet_keys_nodup _ _ hm)

theorem simulate_events_def (records : Records) (pids : List String) (providers : Int) :
    simulate_events records pids providers
      = simLoop (!(fastLaneOf records pids).isEmpty)
          ((fastLaneOf records pids).length + (otherLaneOf records pids).length)
          (fastLaneOf records pids) (otherLaneOf records pids)
          (List.replicate (max 1 providers).toNat 0) 0 := rfl

theorem simulate_wait_map_def (records : Records) (pids : List String) (providers : Int) :
    simulate_wait_map records pids providers
      = (simulate_events records pids providers).foldl
          (fun m e => dictSet m e.pid e.assigned) [] := rfl

theorem simLoop_iters (hasFast : Bool) :
    ∀ (fuel : Nat) (fastQ otherQ : List (String × Int × String)) (slots : List Int) (i : Nat),
      (simLoop hasFast fuel fastQ otherQ slots i).map (fun e => e.iter)
        = List.range' i (min fuel (fastQ.length + otherQ.length))
  | 0, _, _, _, _ => by simp [simLoop]
  | _ + 1, [], [], _, _ => by simp [simLoop]
  | fuel + 1, f :: fs, otherQ, slots, i => by
    have hmin : min (fuel + 1) ((f :: fs).length + otherQ.length)
        = (min fuel (fs.length + otherQ.length)) + 1 := by
      simp only [List.length_cons]
      omega
    by_cases h : (hasFast && i % 3 == 0) = true
    · simp only [simLoop]
      rw [if_pos h]
      simp only [List.map_cons, simLoop_iters hasFast fuel, hmin, List.range'_succ]
      rfl
    · simp only [simLoop]
      rw [if_neg h]
      cases otherQ with
      | cons o os =>
        have hmin2 : min (fuel + 1) ((f :: fs).length + (o :: os).length)
            = (min fuel ((f :: fs).length + os.length)) + 1 := by
          simp only [List.length_cons]
          omega
        simp only [List.map_cons, simLoop_iters hasFast fuel, hmin2, List.range'_succ]
        rfl
      | nil =>
        simp only [List.map_cons, simLoop_iters hasFast fuel, hmin, List.range'_succ]
        rfl
  | fuel + 1, [], o :: os, slots, i => by
    have hmin : min (fuel + 1) (([] : List (String × Int × String)).length + (o :: os).length)
        = (min fuel (([] : List (String × Int × String)).length + os.length)) + 1 := by
      simp only [List.length_cons, List.length_nil]
      omega
    simp only [simLoop, List.map_cons, simLoop_iters hasFast fuel, hmin, List.range'_succ]
    rfl

theorem simulate_events_iters (records : Records) (pids : List String) (providers : Int) :
    (simulate_events records pids providers).map (fun e => e.iter) = List.range pids.length := by
  rw [simulate_events_def, simLoop_iters, Nat.min_self, List.range_eq_range']
  congr 1
  show ((with_meta records pids).filter (fun m => m.2.2 == "Fast")).length
      + ((with_meta records pids).filter (fun m => m.2.2 != "Fast")).length = pids.length
  rw [length_filter_partition, with_meta, List.length_map]

/-- The fast-lane reservation property of a simulator trace: whenever the
iteration counter is divisible by 3 and fast-lane patients remain queued,
the popped patient is from the fast lane. -/
def fastLaneReserved (events : List SimEvent) : Prop :=
  ∀ e ∈ events, e.iter % 3 = 0 → 0 < e.fastBefore → e.lane = "Fast"

/-- The load-balancing property of a simulator trace: every patient is
assigned to the first server with the minimum accumulated load, and that
minimum is the recorded wait. -/
def minLoadChosen (events : List SimEvent) : Prop :=
  ∀ e ∈ events, e.idx = minIdx e.slotsBefore ∧ e.assigned = listMin e.slotsBefore ∧
    e.slotsBefore.getD e.idx 0 = listMin e.slotsBefore

/-- Claim C6: in a queue with at least 3 patients of each lane, every
third assignment slot (iteration counter divisible by 3) goes to a
fast-lane patient while any remain unassigned, and every popped patient is
assigned to the server with the current minimum accumulated load. -/
theorem simulate_fast_lane_and_min_load (records : Records) (pids : List String)
    (providers : Int)
    (hfast : 3 ≤ (fastLaneOf records pids).length)
    (hother : 3 ≤ (otherLaneOf records pids).length) :
    fastLaneReserved (simulate_events records pids providers) ∧
    minLoadChosen (simulate_events records pids providers) ∧
    (simulate_events records pids providers).map (fun e => e.iter)
      = List.range pids.length := by
  have hne : fastLaneOf records pids ≠ [] := by
    intro hc
    rw [hc] at hfast
    simp at hfast
  have hhasFast : (!(fastLaneOf records pids).isEmpty) = true := by
    cases hq : fastLaneOf records pids with
    | nil => exact absurd hq hne
    | cons a t => simp
  have hlane : ∀ m ∈ fastLaneOf records pids, m.2.2 = "Fast" := by
    intro m hm
    have := (List.mem_filter.mp hm).2
    simpa using this
  have hslots : (List.replicate (max 1 providers).toNat (0 : Int)) ≠ [] := by
    have h1 : (1 : Int) ≤ max 1 providers := le_max_left 1 providers
    intro hc
    have hlen := congrArg List.length hc
    simp only [List.length_replicate, List.length_nil] at hlen
    rw [Int.toNat_eq_zero] at hlen
    omega
  refine ⟨?_, ?_, simulate_events_iters records pids providers⟩
  · intro e he hi hf
    rw [simulate_events_def, hhasFast] at he
    exact simLoop_reserved true _ _ _ _ _ hlane e he hi hf rfl
  · intro e he
    rw [simulate_events_def] at he
    obtain ⟨h1, _, h3, h4⟩ := simLoop_minload _ _ _ _ _ _ hslots e he
    exact ⟨h1, h3, h4⟩

/-- Claim C5: for any provider count at least 1 and any id list, the wait
map assigns exactly one value to every id in the list (each listed id is a
key, and keys are unique), and no assigned wait is negative, given the
non-negative visit durations the intake step always stores. -/
theorem simulate_wait_total_and_nonneg (records : Records) (pids : List String)
    (providers : Int)
    (hp : 1 ≤ providers)
    (hdur : ∀ kv ∈ records, 0 ≤ kv.2.estimated_visit_duration_minutes.getD 20) :
    (∀ pid ∈ pids, ((simulate_wait_map records pids providers).lookup pid).isSome = true) ∧
    ((simulate_wait_map records pids providers).map Prod.fst).Nodup ∧
    (∀ kv ∈ simulate_wait_map records pids providers, 0 ≤ kv.2) := by
  have hdur' : ∀ m ∈ with_meta records pids, 0 ≤ m.2.1 := by
    intro m hm
    rcases List.mem_map.mp hm with ⟨pid, _, rfl⟩
    cases hl : records.lookup pid with
    | none => simp [withMetaEntry, hl]
    | some p =>
      simp only [withMetaEntry, hl]
      exact hdur (pid, p) (lookup_mem hl)
  have hdurF : ∀ m ∈ fastLaneOf records pids, 0 ≤ m.2.1 := fun m hm =>
    hdur' m (List.mem_filter.mp hm).1
  have hdurO : ∀ m ∈ otherLaneOf records pids, 0 ≤ m.2.1 := fun m hm =>
    hdur' m (List.mem_filter.mp hm).1
  have hslots0 : ∀ x ∈ List.replicate (max 1 providers).toNat (0 : Int), 0 ≤ x := by
    intro x hx
    rw [List.eq_of_mem_replicate hx]
  have hnonneg : ∀ e ∈ simulate_events records pids providers, 0 ≤ e.assigned := by
    intro e he
    rw [simulate_events_def] at he
    exact simLoop_nonneg _ _ _ _ _ _ hslots0 hdurF hdurO e he
  have hperm := simLoop_pids (!(fastLaneOf records pids).isEmpty)
      ((fastLaneOf records pids).length + (otherLaneOf records pids).length)
      (fastLaneOf records pids) (otherLaneOf records pids)
      (List.replicate (max 1 providers).toNat 0) 0 rfl
  have hfo : ((fastLaneOf records pids) ++ (otherLaneOf records pids)).Perm
      (with_meta records pids) := by
    have hperm2 := List.filter_append_perm (fun m => m.2.2 == "Fast") (with_meta records pids)
    simpa [fastLaneOf, otherLaneOf, bne] using hperm2
  have hmapfst : (with_meta records pids).map (fun m => m.1) = pids := by
    rw [with_meta, List.map_map]
    have : ((fun m : String × Int × String => m.1) ∘ withMetaEntry records) = id := by
      funext pid
      simp [Function.comp, withMetaEntry_fst]
    rw [this, List.map_id]
  have hpids : ∀ pid ∈ pids,
      pid ∈ (simulate_events records pids providers).map (fun e => e.pid) := by
    intro pid hpid
    rw [simulate_events_def]
    apply hperm.mem_iff.mpr
    apply (hfo.map (fun m => m.1)).mem_iff.mpr
    rw [hmapfst]
    exact hpid
  refine ⟨?_, ?_, ?_⟩
  · intro pid hpid
    rw [simulate_wait_map_def]
    exact waitFold_lookup_isSome _ _ _ (Or.inl (hpids pid hpid))
  · rw [simulate_wait_map_def]
    exact waitFold_keys_nodup _ _ (by simp)
  · intro kv hkv
    rw [simulate_wait_map_def] at hkv
    exact waitFold_values_nonneg _ _ hnonneg (by simp) kv hkv

/-! ### Check-in lemmas (claims C3, C4) -/

theorem setKeys_cons (m : List (String × ℚ)) (k0 : String) (ks : List String) (v : ℚ) :
    setKeys m (k0 :: ks) v = setKeys (if k0 = "" then m else dictSet m k0 v) ks v := rfl

theorem setKeys_lookup_of_set :
    ∀ (ks : List String) (m : List (String × ℚ)) (k : String) (v : ℚ),
      m.lookup k = some v → (setKeys m ks v).lookup k = some v
  | [], _, _, _, h => h
  | k0 :: ks, m, k, v, h => by
    rw [setKeys_cons]
    by_cases h0 : k0 = ""
    · rw [if_pos h0]
      exact setKeys_lookup_of_set ks m k v h
    · rw [if_neg h0]
      apply setKeys_lookup_of_set
      by_cases hk : k = k0
      · subst hk
        rw [dictSet_lookup_self]
      · rw [dictSet_lookup_ne _ _ _ _ hk]
        exact h

theorem setKeys_lookup_mem :
    ∀ (ks : List String) (m : List (String × ℚ)) (k : String) (v : ℚ),
      k ∈ ks → k ≠ "" → (setKeys m ks v).lookup k = some v
  | [], _, _, _, h, _ => absurd h (List.not_mem_nil _)
  | k0 :: ks, m, k, v, hmem, hne => by
    rw [setKeys_cons]
    by_cases hk : k = k0
    · subst hk
      rw [if_neg hne]
      exact setKeys_lookup_of_set ks _ k v (dictSet_lookup_self m k v)
    · rcases List.mem_cons.mp hmem with h | h
      · exact absurd h hk
      · exact setKeys_lookup_mem ks _ k v h hne

theorem lookup_filter_of_pred {β : Type} (pred : String × β → Bool) :
    ∀ {m : List (String × β)} {k : String} {v : β}, m.lookup k = some v →
      pred (k, v) = true → (m.filter pred).lookup k = some v
  | [], _, _, h, _ => by simp [List.lookup] at h
  | (k1, w1) :: t, k, v, h, hp => by
    by_cases h2 : k = k1
    · subst h2
      rw [lookup_cons_eq] at h
      cases h
      rw [List.filter_cons, if_pos hp, lookup_cons_eq]
    · rw [lookup_cons_ne _ _ h2] at h
      rw [List.filter_cons]
      by_cases hp1 : pred (k1, w1) = true
      · rw [if_pos hp1, lookup_cons_ne _ _ h2]
        exact lookup_filter_of_pred pred h hp
      · rw [if_neg hp1]
        exact lookup_filter_of_pred pred h hp

theorem evictOld_lookup {m : List (String × ℚ)} {k : String} {v now : ℚ}
    (h : m.lookup k = some v) (hv : ¬ v < now - 60) :
    (evictOld m now).lookup k = some v := by
  unfold evictOld
  by_cases hl : 400 < m.length
  · rw [if_pos hl]
    exact lookup_filter_of_pred _ h (by simp [hv])
  · rw [if_neg hl]
    exact h

theorem entries_eq_of_nodup {β : Type} {k : String} {v : β} :
    ∀ {m : List (String × β)}, (m.map Prod.fst).Nodup → m.lookup k = some v →
      ∀ kv ∈ m, kv.1 = k → kv.2 = v
  | [], _, h, _, _, _ => by simp [List.lookup] at h
  | (k1, w1) :: t, hnd, h, kv, hkv, hk => by
    simp only [List.map_cons, List.nodup_cons] at hnd
    rcases List.mem_cons.mp hkv with rfl | hkv'
    · simp only at hk
      subst hk
      rw [lookup_cons_eq] at h
      cases h
      rfl
    · by_cases h2 : k = k1
      · subst h2
        exfalso
        apply hnd.1
        rw [← hk]
        exact List.mem_map.mpr ⟨kv, hkv', rfl⟩
      · rw [lookup_cons_ne _ _ h2] at h
        exact entries_eq_of_nodup hnd.2 h kv hkv' hk

theorem dictUpdate_lookup_self (m : Records) (k : String) (p1 : PatientRecord) :
    (dictUpdate m k p1).lookup k = (m.lookup k).map (fun _ => p1) :=
  lookup_updMap_self k p1 m

theorem dictUpdate_lookup_ne (m : Records) (k k' : String) (p1 : PatientRecord)
    (h : k' ≠ k) : (dictUpdate m k p1).lookup k' = m.lookup k' :=
  lookup_updMap_ne k k' p1 h m

theorem find_token_dictUpdate (c k : String) (p1 : PatientRecord) :
    ∀ m : Records, (∀ kv ∈ m, kv.1 = k → strUpper kv.2.token = strUpper p1.token) →
      ((dictUpdate m k p1).find? (fun kv => strUpper kv.2.token == c)).map Prod.fst
        = (m.find? (fun kv => strUpper kv.2.token == c)).map Prod.fst
  | [], _ => rfl
  | (k1, w1) :: t, hent => by
    have hcons : dictUpdate ((k1, w1) :: t) k p1
        = (if ((k1, w1) : String × PatientRecord).1 = k then (k, p1) else (k1, w1))
            :: dictUpdate t k p1 := rfl
    rw [hcons]
    by_cases h : k1 = k
    · have htok : strUpper w1.token = strUpper p1.token :=
        hent (k1, w1) (List.mem_cons_self _ _) h
      have hif : (if ((k1, w1) : String × PatientRecord).1 = k then (k, p1) else (k1, w1))
          = (k, p1) := by simp [h]
      rw [hif]
      by_cases hmatch : (strUpper w1.token == c) = true
      · have h1 : (fun kv : String × PatientRecord => strUpper kv.2.token == c) (k, p1)
            = true := by simpa [← htok] using hmatch
        have h2 : (fun kv : String × PatientRecord => strUpper kv.2.token == c) (k1, w1)
            = true := hmatch
        rw [@List.find?_cons_of_pos _ (fun kv : String × PatientRecord =>
            strUpper kv.2.token == c) (k, p1) (dictUpdate t k p1) h1,
          @List.find?_cons_of_pos _ (fun kv : String × PatientRecord =>
            strUpper kv.2.token == c) (k1, w1) t h2]
        simp [h]
      · have h1 : ¬ (fun kv : String × PatientRecord => strUpper kv.2.token == c) (k, p1)
            = true := by simpa [← htok] using hmatch
        have h2 : ¬ (fun kv : String × PatientRecord => strUpper kv.2.token == c) (k1, w1)
            = true := hmatch
        rw [@List.find?_cons_of_neg _ (fun kv : String × PatientRecord =>
            strUpper kv.2.token == c) (k, p1) (dictUpdate t k p1) h1,
          @List.find?_cons_of_neg _ (fun kv : String × PatientRecord =>
            strUpper kv.2.token == c) (k1, w1) t h2]
        exact find_token_dictUpdate c k p1 t
          (fun kv hkv hk => hent kv (List.mem_cons_of_mem _ hkv) hk)
    · have hif : (if ((k1, w1) : String × PatientRecord).1 = k then (k, p1) else (k1, w1))
          = (k1, w1) := by simp [h]
      rw [hif]
      by_cases hmatch : (strUpper w1.token == c) = true
      · have h2 : (fun kv : String × PatientRecord => strUpper kv.2.token == c) (k1, w1)
            = true := hmatch
        rw [@List.find?_cons_of_pos _ (fun kv : String × PatientRecord =>
            strUpper kv.2.token == c) (k1, w1) (dictUpdate t k p1) h2,
          @List.find?_cons_of_pos _ (fun kv : String × PatientRecord =>
            strUpper kv.2.token == c) (k1, w1) t h2]
      · have h2 : ¬ (fun kv : String × PatientRecord => strUpper kv.2.token == c) (k1, w1)
            = true := hmatch
        rw [@List.find?_cons_of_neg _ (fun kv : String × PatientRecord =>
            strUpper kv.2.token == c) (k1, w1) (dictUpdate t k p1) h2,
          @List.find?_cons_of_neg _ (fun kv : String × PatientRecord =>
            strUpper kv.2.token == c) (k1, w1) t h2]
        exact find_token_dictUpdate c k p1 t
          (fun kv hkv hk => hent kv (List.mem_cons_of_mem _ hkv) hk)

theorem resolveCandidate_dictUpdate (m : Records) (k : String) (p p1 : PatientRecord)
    (hnd : (m.map Prod.fst).Nodup) (hl : m.lookup k = some p) (htok : p1.token = p.token) :
    resolveCandidate (dictUpdate m k p1) = resolveCandidate m := by
  funext c
  unfold resolveCandidate
  have hent : ∀ kv ∈ m, kv.1 = k → strUpper kv.2.token = strUpper p1.token := by
    intro kv hkv hk
    rw [entries_eq_of_nodup hnd hl kv hkv hk, htok]
  have hfind := find_token_dictUpdate c k p1 m hent
  have hlookEq : ((dictUpdate m k p1).lookup c).isSome = (m.lookup c).isSome := by
    by_cases hc : c = k
    · subst hc
      rw [dictUpdate_lookup_self, hl]
      rfl
    · rw [dictUpdate_lookup_ne _ _ _ _ hc]
  rw [hlookEq]
  by_cases hs : (m.lookup c).isSome = true
  · rw [if_pos hs, if_pos hs]
  · rw [if_neg hs, if_neg hs]
    cases hf1 : (dictUpdate m k p1).find? (fun kv => strUpper kv.2.token == c) with
    | none =>
      cases hf2 : m.find? (fun kv => strUpper kv.2.token == c) with
      | none => rfl
      | some kv =>
        rw [hf1, hf2] at hfind
        cases hfind
    | some kv' =>
      cases hf2 : m.find? (fun kv => strUpper kv.2.token == c) with
      | none =>
        rw [hf1, hf2] at hfind
        cases hfind
      | some kv =>
        rw [hf1, hf2] at hfind
        simp only [Option.map_some'] at hfind
        simp [hfind]

theorem resolve_code_dictUpdate (m : Records) (k : String) (p p1 : PatientRecord)
    (hnd : (m.map Prod.fst).Nodup) (hl : m.lookup k = some p) (htok : p1.token = p.token)
    (code : String) :
    resolve_code (dictUpdate m k p1) code = resolve_code m code := by
  unfold resolve_code
  rw [resolveCandidate_dictUpdate m k p p1 hnd hl htok]

theorem cooldownHit_of_mem {last : List (String × ℚ)} {keys : List String} {now : ℚ}
    {k : String} (hk : k ∈ keys) (hne : k ≠ "")
    (h : now - lookupD last k 0 < 3) : cooldownHit last keys now = true := by
  unfold cooldownHit
  apply List.any_eq_true.mpr
  exact ⟨k, hk, by simp [hne, h]⟩

theorem cooldownHit_false {last : List (String × ℚ)} {keys : List String} {now : ℚ}
    (h : ∀ k ∈ keys, k ≠ "" → ¬(now - lookupD last k 0 < 3)) :
    cooldownHit last keys now = false := by
  unfold cooldownHit
  apply List.any_eq_false.mpr
  intro k hk
  by_cases hke : k = ""
  · simp [hke]
  · simp [hke, h k hk hke]

theorem checkin_call1
    (s₀ : Store) (code : String) (pid : String) (p : PatientRecord) (t1 : ℚ) (iso1 : String)
    (hres : resolve_code s₀.patients code = some pid)
    (hlook : s₀.patients.lookup pid = some p)
    (hpend : p.status = "pending")
    (hnocool : cooldownHit s₀.last_checkin_by_code
      (List.dedup [pid, strUpper p.token, parsedOf code]) t1 = false) :
    kiosk_checkin_result s₀ code t1 iso1
      = (let p1 : PatientRecord := { p with status := "waiting", checked_in_at := some iso1 }
         let s1 : Store :=
           { s₀ with
               patients := dictUpdate s₀.patients pid p1,
               queue_order :=
                 if s₀.queue_order.contains pid then s₀.queue_order
                 else s₀.queue_order ++ [pid],
               last_checkin_by_code :=
                 evictOld (setKeys s₀.last_checkin_by_code
                   (List.dedup [pid, strUpper p.token]) t1) t1 }
         ({ ok := true, checked_in := true, message := "You are checked in.",
            token := p.token, estimated_wait_min := wait_for_pid s1 pid,
            display_name := some (full_name p1) }, s1)) := by
  unfold kiosk_checkin_result
  simp only [hres, hlook, hnocool, hpend, bne_self_eq_false, Bool.false_eq_true, if_false]

theorem checkin_call2_cooldown
    (s₀ : Store) (code : String) (pid : String) (p : PatientRecord) (t1 t2 : ℚ)
    (iso1 iso2 : String)
    (hres : resolve_code s₀.patients code = some pid)
    (hlook : s₀.patients.lookup pid = some p)
    (hpend : p.status = "pending")
    (hnd : (s₀.patients.map Prod.fst).Nodup)
    (hpid : pid ≠ "")
    (hnocool : cooldownHit s₀.last_checkin_by_code
      (List.dedup [pid, strUpper p.token, parsedOf code]) t1 = false)
    (ht2 : t2 - t1 < 3) :
    kiosk_checkin_result (kiosk_checkin_result s₀ code t1 iso1).2 code t2 iso2
      = ({ ok := false, checked_in := false,
           message := "Scan cooldown active. Please wait 3 seconds.", token := "",
           estimated_wait_min := 0 }, (kiosk_checkin_result s₀ code t1 iso1).2) := by
  rw [checkin_call1 s₀ code pid p t1 iso1 hres hlook hpend hnocool]
  simp only []
  set p1 : PatientRecord := { p with status := "waiting", checked_in_at := some iso1 } with hp1
  set L := evictOld (setKeys s₀.last_checkin_by_code
      (List.dedup [pid, strUpper p.token]) t1) t1 with hL
  set S1 : Store :=
    { s₀ with
        patients := dictUpdate s₀.patients pid p1,
        queue_order :=
          if s₀.queue_order.contains pid then s₀.queue_order
          else s₀.queue_order ++ [pid],
        last_checkin_by_code := L } with hS1
  have hres2 : resolve_code S1.patients code = some pid := by
    rw [hS1]
    show resolve_code (dictUpdate s₀.patients pid p1) code = some pid
    rw [resolve_code_dictUpdate s₀.patients pid p p1 hnd hlook rfl code]
    exact hres
  have hlook2 : S1.patients.lookup pid = some p1 := by
    rw [hS1]
    show (dictUpdate s₀.patients pid p1).lookup pid = some p1
    rw [dictUpdate_lookup_self, hlook]
    rfl
  have hLpid : L.lookup pid = some t1 := by
    rw [hL]
    apply evictOld_lookup
    · exact setKeys_lookup_mem _ _ _ _ (by simp) hpid
    · linarith
  have hcool2 : cooldownHit S1.last_checkin_by_code
      (List.dedup [pid, strUpper p1.token, parsedOf code]) t2 = true := by
    apply cooldownHit_of_mem (k := pid) (by simp) hpid
    show t2 - lookupD S1.last_checkin_by_code pid 0 < 3
    have : S1.last_checkin_by_code = L := rfl
    rw [lookupD, this, hLpid]
    simpa using ht2
  unfold kiosk_checkin_result
  simp only [hres2, hlook2, hcool2, if_true]

theorem checkin_call2_repeat
    (s₀ : Store) (code : String) (pid : String) (p : PatientRecord) (t1 t2 : ℚ)
    (iso1 iso2 : String)
    (hres : resolve_code s₀.patients code = some pid)
    (hlook : s₀.patients.lookup pid = some p)
    (hpend : p.status = "pending")
    (hnd : (s₀.patients.map Prod.fst).Nodup)
    (hpid : pid ≠ "")
    (htokne : strUpper p.token ≠ "")
    (hparsed : parsedOf code = pid ∨ parsedOf code = strUpper p.token)
    (hnocool : cooldownHit s₀.last_checkin_by_code
      (List.dedup [pid, strUpper p.token, parsedOf code]) t1 = false)
    (ht2 : 3 < t2 - t1) :
    ∃ s2 : Store,
      kiosk_checkin_result (kiosk_checkin_result s₀ code t1 iso1).2 code t2 iso2
        = ({ ok := true, checked_in := true, message := "Already checked in.",
             token := p.token, estimated_wait_min := wait_for_pid s2 pid,
             display_name := some (full_name p) }, s2) ∧
      s2.queue_order = (kiosk_checkin_result s₀ code t1 iso1).2.queue_order ∧
      s2.patients = (kiosk_checkin_result s₀ code t1 iso1).2.patients := by
  rw [checkin_call1 s₀ code pid p t1 iso1 hres hlook hpend hnocool]
  simp only []
  set p1 : PatientRecord := { p with status := "waiting", checked_in_at := some iso1 } with hp1
  set L := evictOld (setKeys s₀.last_checkin_by_code
      (List.dedup [pid, strUpper p.token]) t1) t1 with hL
  set S1 : Store :=
    { s₀ with
        patients := dictUpdate s₀.patients pid p1,
        queue_order :=
          if s₀.queue_order.contains pid then s₀.queue_order
          else s₀.queue_order ++ [pid],
        last_checkin_by_code := L } with hS1
  have hres2 : resolve_code S1.patients code = some pid := by
    rw [hS1]
    show resolve_code (dictUpdate s₀.patients pid p1) code = some pid
    rw [resolve_code_dictUpdate s₀.patients pid p p1 hnd hlook rfl code]
    exact hres
  have hlook2 : S1.patients.lookup pid = some p1 := by
    rw [hS1]
    show (dictUpdate s₀.patients pid p1).lookup pid = some p1
    rw [dictUpdate_lookup_self, hlook]
    rfl
  have hLpid : L.lookup pid = some t1 := by
    rw [hL]
    apply evictOld_lookup
    · exact setKeys_lookup_mem _ _ _ _ (by simp) hpid
    · linarith
  have hLtok : L.lookup (strUpper p.token) = some t1 := by
    rw [hL]
    apply evictOld_lookup
    · exact setKeys_lookup_mem _ _ _ _ (by simp) htokne
    · linarith
  have hcool2 : cooldownHit S1.last_checkin_by_code
      (List.dedup [pid, strUpper p1.token, parsedOf code]) t2 = false := by
    apply cooldownHit_false
    intro k hk hkne
    have hmem : k = pid ∨ k = strUpper p1.token ∨ k = parsedOf code := by
      simpa using List.mem_dedup.mp hk
    have htok1 : strUpper p1.token = strUpper p.token := rfl
    have hstep : lookupD S1.last_checkin_by_code k 0 = t1 := by
      have hSL : S1.last_checkin_by_code = L := rfl
      rcases hmem with rfl | rfl | rfl
      · rw [lookupD, hSL, hLpid]; rfl
      · rw [lookupD, hSL, htok1, hLtok]; rfl
      · rcases hparsed with hp2 | hp2 <;> rw [lookupD, hSL, hp2]
        · rw [hLpid]; rfl
        · rw [hLtok]; rfl
    rw [hstep]
    linarith
  have hstat : (p1.status != "pending") = true := by
    rw [hp1]
    rfl
  unfold kiosk_checkin_result
  simp only [hres2, hlook2, hcool2, Bool.false_eq_true, if_false, hstat, if_true]
  exact ⟨_, rfl, rfl, rfl⟩


/-- Claim C3: after a first successful check-in mutation at time t1, a
second call for the same code less than 3 seconds later returns the
cooldown failure (ok false, not checked in) with the state unchanged,
while a second call more than 3 seconds later returns success with
checked_in true, the "Already checked in." message, a freshly computed
wait time, and no new queue entry (queue order and records unchanged). -/
theorem checkin_cooldown_and_idempotent
    (s₀ : Store) (code : String) (pid : String) (p : PatientRecord) (t1 : ℚ) (iso1 : String)
    (hres : resolve_code s₀.patients code = some pid)
    (hlook : s₀.patients.lookup pid = some p)
    (hpend : p.status = "pending")
    (hnd : (s₀.patients.map Prod.fst).Nodup)
    (hpid : pid ≠ "")
    (htokne : strUpper p.token ≠ "")
    (hparsed : parsedOf code = pid ∨ parsedOf code = strUpper p.token)
    (hnocool : cooldownHit s₀.last_checkin_by_code
      (List.dedup [pid, strUpper p.token, parsedOf code]) t1 = false) :
    ((kiosk_checkin_result s₀ code t1 iso1).1.ok = true ∧
      (kiosk_checkin_result s₀ code t1 iso1).1.checked_in = true ∧
      (kiosk_checkin_result s₀ code t1 iso1).1.message = "You are checked in.") ∧
    (∀ (t2 : ℚ) (iso2 : String), t2 - t1 < 3 →
      kiosk_checkin_result (kiosk_checkin_result s₀ code t1 iso1).2 code t2 iso2
        = ({ ok := false, checked_in := false,
             message := "Scan cooldown active. Please wait 3 seconds.", token := "",
             estimated_wait_min := 0 }, (kiosk_checkin_result s₀ code t1 iso1).2)) ∧
    (∀ (t2 : ℚ) (iso2 : String), 3 < t2 - t1 →
      ∃ s2 : Store,
        kiosk_checkin_result (kiosk_checkin_result s₀ code t1 iso1).2 code t2 iso2
          = ({ ok := true, checked_in := true, message := "Already checked in.",
               token := p.token, estimated_wait_min := wait_for_pid s2 pid,
               display_name := some (full_name p) }, s2) ∧
        s2.queue_order = (kiosk_checkin_result s₀ code t1 iso1).2.queue_order ∧
        s2.patients = (kiosk_checkin_result s₀ code t1 iso1).2.patients) := by
  refine ⟨?_, ?_, ?_⟩
  · rw [checkin_call1 s₀ code pid p t1 iso1 hres hlook hpend hnocool]
    exact ⟨rfl, rfl, rfl⟩
  · intro t2 iso2 ht2
    exact checkin_call2_cooldown s₀ code pid p t1 t2 iso1 iso2 hres hlook hpend hnd hpid
      hnocool ht2
  · intro t2 iso2 ht2
    exact checkin_call2_repeat s₀ code pid p t1 t2 iso1 iso2 hres hlook hpend hnd hpid
      htokne hparsed hnocool ht2

/-- A pending patient used to witness the check-in claims at a concrete
input. -/
def pendingRecordW : PatientRecord := { token := "UC-9999", status := "pending" }

/-- A one-patient store used to witness the check-in claims. -/
def pendingStoreW : Store :=
  { patients := [("PID1", pendingRecordW)], queue_order := [], provider_count := 1,
    last_checkin_by_code := [] }

theorem checkin_cooldown_and_idempotent_witness :
    (kiosk_checkin_result pendingStoreW "PID1" 10 "2026-01-01T10:00:00").1.ok = true ∧
    (kiosk_checkin_result pendingStoreW "PID1" 10 "2026-01-01T10:00:00").1.checked_in = true :=
  let h := checkin_cooldown_and_idempotent pendingStoreW "PID1" "PID1" pendingRecordW 10
    "2026-01-01T10:00:00" (by decide) (by decide) rfl (by decide) (by decide) (by decide)
    (Or.inl (by decide)) (by decide)
  ⟨h.1.1, h.1.2.1⟩

/-- The two-patient store exhibiting the missing reorder after check-in:
patient A is waiting with low priority; patient B is still pending but was
already classified high (priority set by the triage endpoint while
pending). -/
def checkinReorderStore : Store :=
  { patients :=
      [("A", { token := "UC-1111", status := "waiting", priority := "low",
               checked_in_at := some "2026-01-01T10:00:00",
               operational_complexity := some "Low",
               estimated_visit_duration_minutes := some 15 }),
       ("B", { token := "UC-2222", status := "pending", priority := "high",
               emergency_type := "low_oxygen",
               operational_complexity := some "Moderate",
               estimated_visit_duration_minutes := some 25 })],
    queue_order := ["A"], provider_count := 1, last_checkin_by_code := [] }

/-- Claim C4 (code bug): `_kiosk_checkin_result` appends the checked-in
patient to the queue without invoking `_reorder_queue_by_priority`
(app.py lines 1226 to 1246 contain no reorder call), so after patient B
(classified high while pending) checks in, the queue order is [A, B] while
the canonical order is [B, A]: the active partition is not sorted by
(priorityRank, checkedInAt). -/
theorem checkin_skips_reorder :
    (kiosk_checkin_result checkinReorderStore "B" 100 "2026-01-01T10:05:00").1.checked_in
        = true ∧
    (kiosk_checkin_result checkinReorderStore "B" 100 "2026-01-01T10:05:00").2.queue_order
        = ["A", "B"] ∧
    reorder_queue_by_priority
        (kiosk_checkin_result checkinReorderStore "B" 100 "2026-01-01T10:05:00").2.patients
        (kiosk_checkin_result checkinReorderStore "B" 100 "2026-01-01T10:05:00").2.queue_order
        = ["B", "A"] ∧
    (kiosk_checkin_result checkinReorderStore "B" 100 "2026-01-01T10:05:00").2.queue_order
        ≠ reorder_queue_by_priority
            (kiosk_checkin_result checkinReorderStore "B" 100 "2026-01-01T10:05:00").2.patients
            (kiosk_checkin_result checkinReorderStore "B" 100 "2026-01-01T10:05:00").2.queue_order := by
  exact ⟨by decide, by decide, by decide, by decide⟩

/-! ### Token allocation (claim C7) -/

set_option maxRecDepth 4000 in
/-- Claim C7 (code bug): `next_token` can return a token equal to one
already issued.  With `UC-1234` already in `issued_tokens`, 500 random
draws of 1234 (each rejected by the loop) and a uuid fallback whose first
four hex digits are `1234`, the fallback `UC-1234` is returned although it
is already issued: the fallback path never checks the issued set. -/
theorem next_token_fallback_collision :
    (next_token [] ["UC-1234"] (List.replicate 500 1234) "1234").1 = "UC-1234" ∧
    "UC-1234" ∈ (["UC-1234"] : List String) := by
  exact ⟨by decide, by decide⟩

/-! ### Staff status transitions (claim C8) -/

/-- Claim C8: `api_staff_status` succeeds exactly for the statuses called,
in_room and done; an unknown id yields NotFound (404) and any other status
yields InvalidTransition (400), both before any mutation; and setting
status done removes the id from the active partition while the record is
retained, with the new status, and still resolvable. -/
theorem staff_status_transitions (s : Store) (pid status : String) :
    (s.patients.lookup pid = none →
      api_staff_status s pid status = (.error .notFound, s)) ∧
    (∀ p, s.patients.lookup pid = some p →
      status ∉ (["called", "in_room", "done"] : List String) →
      api_staff_status s pid status = (.error .invalidTransition, s)) ∧
    (∀ p, s.patients.lookup pid = some p →
      status ∈ (["called", "in_room", "done"] : List String) →
      api_staff_status s pid status
        = (.ok (), { s with
            patients := dictUpdate s.patients pid { p with status := status },
            queue_order :=
              if status = "done" then s.queue_order.filter (fun x => x != pid)
              else s.queue_order })) ∧
    (∀ p, s.patients.lookup pid = some p →
      pid ∉ queue_active (api_staff_status s pid "done").2 ∧
      (api_staff_status s pid "done").2.patients.lookup pid
        = some { p with status := "done" }) := by
  refine ⟨?_, ?_, ?_, ?_⟩
  · intro h
    unfold api_staff_status
    simp [h]
  · intro p hp hmem
    simp only [List.mem_cons, List.mem_singleton, not_or, List.not_mem_nil] at hmem
    obtain ⟨h1, h2, h3, -⟩ :
        ¬status = "called" ∧ ¬status = "in_room" ∧ ¬status = "done" ∧ ¬status ∈ [] := by
      simpa using hmem
    unfold api_staff_status
    simp [hp, h1, h2, h3]
  · intro p hp hmem
    simp only [List.mem_cons, List.not_mem_nil, or_false, List.mem_singleton] at hmem
    rcases hmem with rfl | rfl | rfl <;>
      · unfold api_staff_status
        simp [hp]
  · intro p hp
    have hdone : api_staff_status s pid "done"
        = (.ok (), { s with
            patients := dictUpdate s.patients pid { p with status := "done" },
            queue_order := s.queue_order.filter (fun x => x != pid) }) := by
      unfold api_staff_status
      simp [hp]
    constructor
    · intro hmem
      rw [hdone] at hmem
      unfold queue_active at hmem
      have hq := (List.mem_filter.mp hmem).1
      simp only at hq
      have := (List.mem_filter.mp hq).2
      simp at this
    · rw [hdone]
      show (dictUpdate s.patients pid { p with status := "done" }).lookup pid = _
      rw [dictUpdate_lookup_self, hp]
      rfl

theorem staff_status_transitions_witness :
    api_staff_status pendingStoreW "MISSING" "done"
      = (.error .notFound, pendingStoreW) :=
  (staff_status_transitions pendingStoreW "MISSING" "done").1 (by decide)


/-! ### Concrete witnesses for the simulator claims -/

/-- A fast-lane (complexity Low) patient template. -/
def fastRecW : PatientRecord :=
  { token := "UC-0001", status := "waiting", operational_complexity := some "Low",
    estimated_visit_duration_minutes := some 15 }

/-- A standard-lane (complexity Moderate) patient template. -/
def stdRecW : PatientRecord :=
  { token := "UC-0002", status := "waiting", operational_complexity := some "Moderate",
    estimated_visit_duration_minutes := some 25 }

/-- A mixed queue with three patients of each lane. -/
def mixedRecordsW : Records :=
  [("F1", fastRecW), ("F2", fastRecW), ("F3", fastRecW),
   ("S1", stdRecW), ("S2", stdRecW), ("S3", stdRecW)]

/-- The arrival order of the mixed queue. -/
def mixedPidsW : List String := ["S1", "F1", "S2", "F2", "S3", "F3"]

theorem simulate_wait_total_and_nonneg_witness :
    ((simulate_wait_map mixedRecordsW mixedPidsW 2).lookup "S1").isSome = true ∧
    (∀ kv ∈ simulate_wait_map mixedRecordsW mixedPidsW 2, 0 ≤ kv.2) :=
  let h := simulate_wait_total_and_nonneg mixedRecordsW mixedPidsW 2 (by decide) (by decide)
  ⟨h.1 "S1" (by decide), h.2.2⟩

theorem simulate_fast_lane_and_min_load_witness :
    fastLaneReserved (simulate_events mixedRecordsW mixedPidsW 2) ∧
    minLoadChosen (simulate_events mixedRecordsW mixedPidsW 2) ∧
    (simulate_events mixedRecordsW mixedPidsW 2).map (fun e => e.iter)
      = List.range mixedPidsW.length :=
  simulate_fast_lane_and_min_load mixedRecordsW mixedPidsW 2 (by decide) (by decide)

end CarePilot
